import Mathlib

/-!
Verification development for the tao menu/hotkey/DPI core.

The Rust sources embedded here are `src/hotkey.rs`, `src/dpi.rs`,
`src/platform_impl/linux/menu.rs` and `src/platform_impl/windows/menu.rs`.
Rust `f64` arithmetic is modelled over `ℚ` (exact arithmetic), with IEEE
classification flags carried separately where the code inspects them;
Rust machine integers are modelled as `ℤ`/`ℕ` with explicit saturation
where an `as` cast occurs.
-/

namespace Tao

/-! ### Keyboard model

The keyboard module is not among the embedded sources; hotkey matching only
uses structural equality of keys and the four tracked modifier bits, so keys
are modelled as abstract key codes. -/

/-- Abstract key code standing for `keyboard::Key`; `hotkey.rs` only ever
compares keys for structural equality. -/
abbrev Key := Nat

/-- Modelled from the spec: `keyboard::ModifiersState` (absent from the
embedded sources) is a bitset of modifier-like flags in which the four tracked
bits are Shift, Control, Alt and Super, and further modifier-like bits
(left/right variants and the like) live alongside them. The four tracked bits
are explicit fields; `other` is the residual bitset of all remaining
modifier-like bits. -/
structure ModifiersState where
  shift : Bool
  control : Bool
  alt : Bool
  superKey : Bool
  other : Nat
deriving DecidableEq

/-- Bitwise-and with `base_mods = SHIFT | CONTROL | ALT | SUPER`: keeps the
four tracked bits and clears every other bit. -/
def ModifiersState.maskBase (m : ModifiersState) : ModifiersState :=
  { shift := m.shift, control := m.control, alt := m.alt
    superKey := m.superKey, other := 0 }

/-- The sixteen modifier combinations of `hotkey.rs` (`RawMods`). -/
inductive RawMods where
  | none
  | alt
  | ctrl
  | meta
  | shift
  | altCtrl
  | altMeta
  | altShift
  | ctrlShift
  | ctrlMeta
  | metaShift
  | altCtrlMeta
  | altCtrlShift
  | altMetaShift
  | ctrlMetaShift
  | altCtrlMetaShift
deriving DecidableEq

/-- The `From<RawMods> for ModifiersState` table of `hotkey.rs`: expand a
`RawMods` value to its equivalent bit combination (Meta maps to the Super
bit); no residual bits are ever set. -/
def RawMods.toModifiersState : RawMods → ModifiersState
  | .none => ⟨false, false, false, false, 0⟩
  | .alt => ⟨false, false, true, false, 0⟩
  | .ctrl => ⟨false, true, false, false, 0⟩
  | .meta => ⟨false, false, false, true, 0⟩
  | .shift => ⟨true, false, false, false, 0⟩
  | .altCtrl => ⟨false, true, true, false, 0⟩
  | .altMeta => ⟨false, false, true, true, 0⟩
  | .altShift => ⟨true, false, true, false, 0⟩
  | .ctrlShift => ⟨true, true, false, false, 0⟩
  | .ctrlMeta => ⟨false, true, false, true, 0⟩
  | .metaShift => ⟨true, false, false, true, 0⟩
  | .altCtrlMeta => ⟨false, true, true, true, 0⟩
  | .altCtrlShift => ⟨true, true, true, false, 0⟩
  | .altMetaShift => ⟨true, false, true, true, 0⟩
  | .ctrlMetaShift => ⟨true, true, false, true, 0⟩
  | .altCtrlMetaShift => ⟨true, true, true, true, 0⟩

/-- The `HotKey` value of `hotkey.rs`: a modifier combination plus a key. -/
structure HotKey where
  mods : RawMods
  key : Key
deriving DecidableEq

/-- `HotKey::new`: a missing modifier argument defaults to `RawMods::None`. -/
def HotKey.new (mods : Option RawMods) (key : Key) : HotKey :=
  { mods := mods.getD RawMods.none, key := key }

/-- `HotKey::matches`: the observed modifier state is first masked to the four
tracked bits (`base_mods`), then compared bit-for-bit against the expansion of
the stored `RawMods`; the observed key is compared structurally. -/
def HotKey.matches (h : HotKey) (modifiers : ModifiersState) (key : Key) : Bool :=
  decide (h.mods.toModifiersState = modifiers.maskBase) && decide (h.key = key)

/-- Discriminant of a `RawMods` value, used by the hash model. -/
def RawMods.encode : RawMods → Nat
  | .none => 0
  | .alt => 1
  | .ctrl => 2
  | .meta => 3
  | .shift => 4
  | .altCtrl => 5
  | .altMeta => 6
  | .altShift => 7
  | .ctrlShift => 8
  | .ctrlMeta => 9
  | .metaShift => 10
  | .altCtrlMeta => 11
  | .altCtrlShift => 12
  | .altMetaShift => 13
  | .ctrlMetaShift => 14
  | .altCtrlMetaShift => 15

/-- Modelled from the spec: `hash_hotkey_to_u16` feeds the structural value of
the hotkey into `DefaultHasher::new()` (the seedless, deterministic standard
SipHash) and truncates `finish()` to 16 bits. The exact mixing function is
external library code; it is modelled as a fixed mixing of the structural
fields reduced mod 2^16 — a pure function of the structural value into the
16-bit space, which is all the specification promises. -/
def hash_hotkey_to_u16 (h : HotKey) : Nat :=
  (h.mods.encode * 31 + h.key * 257 + 12345) % 65536

/-- `HotKey::id`: the derived 16-bit identifier. -/
def HotKey.id (h : HotKey) : Nat :=
  hash_hotkey_to_u16 h

/-- Modelled from the spec: the platform `GlobalAccelerator` (in the
platform-specific modules, absent from the embedded sources) is constructed
from the hotkey it wraps; its derived equality is structural on that value. -/
structure GlobalAcceleratorPlatform where
  hotkey : HotKey
deriving DecidableEq

/-- `GlobalAcceleratorPlatform::new`. -/
def GlobalAcceleratorPlatform.new (h : HotKey) : GlobalAcceleratorPlatform :=
  ⟨h⟩

/-- The public `GlobalAccelerator` newtype of `hotkey.rs`. -/
structure GlobalAccelerator where
  plat : GlobalAcceleratorPlatform
deriving DecidableEq

/-- The error type of `hotkey.rs`. -/
inductive HotKeyManagerError where
  | HotKeyAlreadyRegistered (h : HotKey)
  | HotKeyNotRegistered (h : HotKey)
  | InvalidHotKey (reason : String)
deriving DecidableEq

/-- `HotKeyManager`: the vector of registered accelerators. -/
structure HotKeyManager where
  registered_hotkeys : List GlobalAccelerator
deriving DecidableEq

/-- `HotKeyManager::new` / `Default`. -/
def HotKeyManager.new : HotKeyManager :=
  ⟨[]⟩

/-- `HotKeyManager::is_registered`: wrap the hotkey exactly as `register`
would and test membership in the registered vector (structural equality). -/
def HotKeyManager.is_registered (m : HotKeyManager) (h : HotKey) : Bool :=
  m.registered_hotkeys.contains ⟨GlobalAcceleratorPlatform.new h⟩

/-- `HotKeyManager::register`: reject an already-registered hotkey with
`HotKeyAlreadyRegistered`, leaving the state untouched; otherwise append the
freshly wrapped accelerator and return it. The mutated manager is returned
alongside the result (Rust mutates `self` in place). -/
def HotKeyManager.register (m : HotKeyManager) (h : HotKey) :
    Except HotKeyManagerError GlobalAccelerator × HotKeyManager :=
  if m.is_registered h then
    (Except.error (HotKeyManagerError.HotKeyAlreadyRegistered h), m)
  else
    let acc : GlobalAccelerator := ⟨GlobalAcceleratorPlatform.new h⟩
    (Except.ok acc, ⟨m.registered_hotkeys ++ [acc]⟩)

/-! ### DPI model (`src/dpi.rs`)

Scale factors are `f64` values whose IEEE classification matters
(`validate_scale_factor` inspects it), so they carry classification flags
next to the exact rational value they denote. Pixel components themselves
only ever flow through ordinary arithmetic, so they are plain rationals
(for float pixel types) or integers produced by rounding casts. -/

/-- Model of an `f64` scale factor: `val` is the rational value the float
denotes (irrelevant and conventionally `0` for NaN and the infinities),
together with the IEEE classification flags that the dpi code inspects. -/
structure F64 where
  val : ℚ
  isNaN : Bool := false
  isInfinite : Bool := false
  isSubnormal : Bool := false
  signPositive : Bool := true
deriving DecidableEq

/-- Coherence of the sign flag with the denoted value: a float denoting a
negative value has a negative sign bit, one denoting a positive value a
positive sign bit. (Zeros, NaNs and infinities may carry either sign.) -/
def F64.WF (x : F64) : Prop :=
  (x.val < 0 → x.signPositive = false) ∧ (0 < x.val → x.signPositive = true)

instance (x : F64) : Decidable x.WF := by
  unfold F64.WF; infer_instance

/-- Embed an ordinary finite, non-subnormal rational as an `F64`. -/
def F64.ofRat (q : ℚ) : F64 :=
  { val := q, signPositive := decide (0 ≤ q) }

/-- Rust `f64::is_normal`: neither NaN, nor infinite, nor subnormal, nor
zero. -/
def F64.is_normal (x : F64) : Bool :=
  !x.isNaN && !x.isInfinite && !x.isSubnormal && decide (x.val ≠ 0)

/-- Rust `f64::is_sign_positive`: the sign bit. -/
def F64.is_sign_positive (x : F64) : Bool :=
  x.signPositive

/-- `dpi::validate_scale_factor`: sign-positive and normal. -/
def validate_scale_factor (s : F64) : Bool :=
  s.is_sign_positive && s.is_normal

/-- Rust `f64::round`: round to the nearest integer, ties away from zero. -/
def rustRound (q : ℚ) : ℤ :=
  if 0 ≤ q then ⌊q + 1 / 2⌋ else ⌈q - 1 / 2⌉

/-- Largest `u32` value, for the saturating `as u32` cast. -/
def u32max : ℤ := 2 ^ 32 - 1

/-- Smallest `i32` value. -/
def i32min : ℤ := -(2 ^ 31)

/-- Largest `i32` value. -/
def i32max : ℤ := 2 ^ 31 - 1

/-- Saturating integer conversion, the semantics of Rust `as` between an
`f64` and a bounded integer type. -/
def satCast (lo hi n : ℤ) : ℤ :=
  max lo (min hi n)

/-- The `Pixel` trait of `dpi.rs`: a pixel representation converts into
`f64` and is produced from an `f64`. -/
class Pixel (P : Type) where
  intoF64 : P → ℚ
  from_f64 : ℚ → P

/-- `Pixel::cast`: go through `f64` (`P::from_f64(self.into())`). -/
def Pixel.cast {P X : Type} [Pixel P] [Pixel X] (p : P) : X :=
  Pixel.from_f64 (Pixel.intoF64 p)

/-- A `u32` pixel component: an integer that the rounding cast saturates
into `[0, u32max]`. -/
structure U32 where
  v : ℤ
deriving DecidableEq

/-- The `pixel_int_impl!` instance for `u32`: `f.round() as u32`. -/
instance instPixelU32 : Pixel U32 where
  intoF64 x := (x.v : ℚ)
  from_f64 q := ⟨satCast 0 u32max (rustRound q)⟩

/-- An `i32` pixel component. -/
structure I32 where
  v : ℤ
deriving DecidableEq

/-- The `pixel_int_impl!` instance for `i32`: `f.round() as i32`. -/
instance instPixelI32 : Pixel I32 where
  intoF64 x := (x.v : ℚ)
  from_f64 q := ⟨satCast i32min i32max (rustRound q)⟩

/-- The `f64` pixel instance: the identity in the exact model. -/
instance instPixelRat : Pixel ℚ where
  intoF64 q := q
  from_f64 q := q

/-- `LogicalSize<P>`. -/
structure LogicalSize (P : Type) where
  width : P
  height : P
deriving DecidableEq

/-- `PhysicalSize<P>`. -/
structure PhysicalSize (P : Type) where
  width : P
  height : P
deriving DecidableEq

/-- `LogicalSize::to_physical`: assert the scale factor (modelled as
returning `none` on assertion failure), multiply each component by it in
`f64`, then cast into the target pixel type. -/
def LogicalSize.to_physical {P X : Type} [Pixel P] [Pixel X]
    (s : LogicalSize P) (scale_factor : F64) : Option (PhysicalSize X) :=
  if validate_scale_factor scale_factor then
    some ⟨Pixel.from_f64 (Pixel.intoF64 s.width * scale_factor.val),
          Pixel.from_f64 (Pixel.intoF64 s.height * scale_factor.val)⟩
  else
    none

/-- `LogicalSize::cast`: componentwise pixel cast. -/
def LogicalSize.cast {P X : Type} [Pixel P] [Pixel X]
    (s : LogicalSize P) : LogicalSize X :=
  ⟨Pixel.cast s.width, Pixel.cast s.height⟩

/-- `PhysicalSize::to_logical`: assert the scale factor, divide each
component by it in `f64`, then cast into the target pixel type. -/
def PhysicalSize.to_logical {P X : Type} [Pixel P] [Pixel X]
    (s : PhysicalSize P) (scale_factor : F64) : Option (LogicalSize X) :=
  if validate_scale_factor scale_factor then
    some ⟨Pixel.from_f64 (Pixel.intoF64 s.width / scale_factor.val),
          Pixel.from_f64 (Pixel.intoF64 s.height / scale_factor.val)⟩
  else
    none

/-- `PhysicalSize::cast`: componentwise pixel cast. -/
def PhysicalSize.cast {P X : Type} [Pixel P] [Pixel X]
    (s : PhysicalSize P) : PhysicalSize X :=
  ⟨Pixel.cast s.width, Pixel.cast s.height⟩

/-- The unified `Size`: `Physical(PhysicalSize<u32>)` or
`Logical(LogicalSize<f64>)`. -/
inductive Size where
  | Physical (val : PhysicalSize U32)
  | Logical (val : LogicalSize ℚ)
deriving DecidableEq

/-- Unified `Size::to_logical`: the `Physical` variant converts (and hence
asserts the scale factor); the `Logical` variant is merely cast, with no
validation at all. -/
def Size.to_logical {P : Type} [Pixel P] (s : Size) (scale_factor : F64) :
    Option (LogicalSize P) :=
  match s with
  | .Physical val => val.to_logical scale_factor
  | .Logical val => some val.cast

/-- Unified `Size::to_physical`: the `Physical` variant is merely cast, with
no validation; the `Logical` variant converts (and hence asserts). -/
def Size.to_physical {P : Type} [Pixel P] (s : Size) (scale_factor : F64) :
    Option (PhysicalSize P) :=
  match s with
  | .Physical val => some val.cast
  | .Logical val => val.to_physical scale_factor

/-- The inner closure of `Size::clamp`: clamp one dimension into
`[lo, hi]`. -/
def clampDim (desired lo hi : ℚ) : ℚ :=
  if desired < lo then lo
  else if desired > hi then hi
  else desired

/-- The physical `f64` intermediate of `Size::clamp`: convert all three
sizes to `PhysicalSize<f64>` at the given scale factor and clamp width and
height independently. -/
def Size.clampPhys (desired_size mn mx : Size) (scale_factor : F64) :
    Option (PhysicalSize ℚ) := do
  let d ← Size.to_physical (P := ℚ) desired_size scale_factor
  let lo ← Size.to_physical (P := ℚ) mn scale_factor
  let hi ← Size.to_physical (P := ℚ) mx scale_factor
  some ⟨clampDim d.width lo.width hi.width, clampDim d.height lo.height hi.height⟩

/-- `Size::clamp`: the physical `f64` clamp, converted back into a unified
`Size` through `From<PhysicalSize<f64>>`, which casts each component to
`u32` by rounding. -/
def Size.clamp (desired_size mn mx : Size) (scale_factor : F64) : Option Size :=
  (Size.clampPhys desired_size mn mx scale_factor).map fun p =>
    Size.Physical p.cast

/-! ### Menu model

The platform-agnostic `crate::menu` types are not among the embedded
sources; they are modelled from the spec. The GTK materializer
(`platform_impl/linux/menu.rs`) and the Win32 bridge
(`platform_impl/windows/menu.rs`) are translated from the source. -/

/-- Modelled from the spec: `MenuId` is a caller-supplied `u32`
identifier. -/
abbrev MenuId := Nat

/-- Modelled from the spec: the origin kind carried by a menu event,
distinguishing a menu-bar activation from a tray/context activation. -/
inductive MenuType where
  | MenuBar
  | ContextMenu
deriving DecidableEq

/-- Modelled from the spec: the fixed catalog of native menu actions
(`crate::menu::MenuItem` minus `Custom`), as matched by the GTK
materializer; kinds past `Paste` have no GTK arm and fall into its
catch-all. -/
inductive MenuItem where
  | Separator
  | About (name : String)
  | Hide
  | CloseWindow
  | Quit
  | Copy
  | Cut
  | SelectAll
  | Paste
  | Services
  | Undo
  | Redo
  | EnterFullScreen
  | Minimize
  | Zoom
deriving DecidableEq

/-- The fields of the GTK `MenuItemAttributes` that determine the produced
widget: identifier, optional accelerator, flags and label. -/
structure MenuItemAttributes where
  id : MenuId
  key : Option HotKey
  selected : Bool
  enabled : Bool
  title : String
deriving DecidableEq

/-- A GTK builder entry (`GtkMenuInfo`): exactly the three well-formed
shapes that `add_item`, `add_submenu` and `add_native_item` push. -/
inductive GtkMenuInfo where
  | custom (attrs : MenuItemAttributes)
  | submenu (title : String) (enabled : Bool) (menu : List GtkMenuInfo)
  | native (item : MenuItem)

/-- A GTK builder menu is its ordered entry list (`Menu.gtk_items`). -/
abbrev GtkMenu := List GtkMenuInfo

/-- `Menu::add_item` (GTK): push a custom entry. -/
def GtkMenu.add_item (m : GtkMenu) (attrs : MenuItemAttributes) : GtkMenu :=
  m ++ [GtkMenuInfo.custom attrs]

/-- `Menu::add_native_item` (GTK): push a native entry. -/
def GtkMenu.add_native_item (m : GtkMenu) (item : MenuItem) : GtkMenu :=
  m ++ [GtkMenuInfo.native item]

/-- `Menu::add_submenu` (GTK): push a submenu entry. -/
def GtkMenu.add_submenu (m : GtkMenu) (title : String) (enabled : Bool)
    (submenu : GtkMenu) : GtkMenu :=
  m ++ [GtkMenuInfo.submenu title enabled submenu]

/-- A materialized GTK child widget: a (possibly activatable) menu item, a
separator, or a submenu container. `activate` records the `MenuId` wired by
`connect_activate`, `none` for items with no activation handler. -/
inductive GtkChild where
  | item (label : String) (activate : Option MenuId)
  | separator
  | submenuItem (label : String) (children : List GtkChild)

mutual

/-- One iteration of the `generate_menu` loop: the native widget appended
for a single builder entry, `none` when the entry appends nothing (the
unsupported-native catch-all). Labels follow the source arms; accelerator
registration does not affect child identity or order. -/
def genInfo : GtkMenuInfo → Option GtkChild
  | .custom attrs => some (.item attrs.title (some attrs.id))
  | .submenu title _enabled menu => some (.submenuItem title (genList menu))
  | .native .Separator => some .separator
  | .native (.About s) => some (.item ("About " ++ s) none)
  | .native .Hide => some (.item "Hide" none)
  | .native .CloseWindow => some (.item "Close Window" none)
  | .native .Quit => some (.item "Quit" none)
  | .native .Copy => some (.item "Copy" none)
  | .native .Cut => some (.item "Cut" none)
  | .native .SelectAll => some (.item "Select All" none)
  | .native .Paste => some (.item "Paste" none)
  | .native _ => none

/-- `Menu::generate_menu` (GTK): walk the entry list once in order,
appending the produced widget (when any) for each entry in turn. -/
def genList : GtkMenu → List GtkChild
  | [] => []
  | i :: rest =>
    match genInfo i with
    | some c => c :: genList rest
    | none => genList rest

end

/-- The messages an activation handler pushes: `WindowRequest::Menu` carries
`(None, Some(MenuId))` for a custom item. Clicking a materialized child
fires its `connect_activate` handler, which sends exactly one request;
children without a handler (separators, native placeholders) send none. -/
def gtkActivate : GtkChild → List (Option Nat × Option MenuId)
  | .item _ (some id) => [(none, some id)]
  | _ => []

/-! #### Win32 bridge (`platform_impl/windows/menu.rs`) -/

/-- The fixed control id for the built-in Cut item. -/
def CUT_ID : Nat := 544654

/-- The fixed control id for the built-in Copy item. -/
def COPY_ID : Nat := 5465454

/-- The fixed control id for the built-in Paste item. -/
def PASTE_ID : Nat := 5479854

/-- The event produced by `MenuHandler::send_click_event`:
`Event::MenuEvent { menu_id, origin }`. -/
structure MenuEvent where
  menu_id : MenuId
  origin : MenuType
deriving DecidableEq

/-- The `WM_COMMAND` arm of `subclass_proc`: the three fixed edit ids are
intercepted (a synthetic Ctrl+key press is injected instead of any menu
event); every other `w_param` produces exactly one `MenuEvent` whose id is
`w_param as u32`. -/
def subclass_wm_command (origin : MenuType) (w_param : Nat) : List MenuEvent :=
  if w_param = CUT_ID then []
  else if w_param = COPY_ID then []
  else if w_param = PASTE_ID then []
  else [⟨w_param % 2 ^ 32, origin⟩]

/-- A native child of a Win32 `HMENU`, as appended by `AppendMenuW`. -/
inductive WinChild where
  | separator
  | popup (label : String) (enabled : Bool) (children : List WinChild)
  | strItem (cmd : Nat) (label : String)

/-- A Win32 menu is the ordered list of its appended children. -/
abbrev WinMenu := List WinChild

/-- `Menu::add_item` (Win32): append the native construct an agnostic
`MenuItem` maps to — a separator, a popup wrapping the submenu, or one of
the three fixed-id edit items; unsupported kinds append nothing. (`Custom`
goes through `add_custom_item` instead.) -/
def WinMenu.add_item (m : WinMenu) (item : MenuItem) : WinMenu :=
  match item with
  | .Separator => m ++ [WinChild.separator]
  | .Cut => m ++ [WinChild.strItem CUT_ID "&Cut\tCtrl+X"]
  | .Copy => m ++ [WinChild.strItem COPY_ID "&Copy\tCtrl+C"]
  | .Paste => m ++ [WinChild.strItem PASTE_ID "&Pase\tCtrl+V"]
  | _ => m

/-- `Menu::add_item` for the submenu case (Win32): append a popup wrapping
the already-built child menu. -/
def WinMenu.add_submenu (m : WinMenu) (title : String) (enabled : Bool)
    (submenu : WinMenu) : WinMenu :=
  m ++ [WinChild.popup title enabled submenu]

/-- `Menu::add_custom_item` (Win32): append a string item whose command id
is the caller-supplied `MenuId` (`id.0 as UINT_PTR`). -/
def WinMenu.add_custom_item (m : WinMenu) (id : MenuId) (text : String) :
    WinMenu :=
  m ++ [WinChild.strItem id text]

/-! ### Theorems -/

/-- C3: for every hotkey, observed modifier state and key, `matches` returns
true iff the key equals the hotkey's key and the observed modifiers masked to
the four tracked bits (Shift, Control, Alt, Super) equal the hotkey's
modifiers; setting any modifier-like bits outside those four never changes the
result. -/
theorem hotkey_matches_iff (h : HotKey) (m : ModifiersState) (k : Key) :
    (h.matches m k = true ↔
      (k = h.key ∧ m.maskBase = h.mods.toModifiersState)) ∧
    (∀ extra : Nat,
      h.matches { m with other := m.other ||| extra } k = h.matches m k) := by
  constructor
  · simp only [HotKey.matches, Bool.and_eq_true, decide_eq_true_eq]
    exact ⟨fun ⟨a, b⟩ => ⟨b.symm, a.symm⟩, fun ⟨a, b⟩ => ⟨b.symm, a.symm⟩⟩
  · intro extra
    simp [HotKey.matches, ModifiersState.maskBase]

/-- Witness for C3: the theorem applied at Ctrl+Shift with key 5, observed
modifiers carrying residual bits 7 (and additionally 8). -/
theorem hotkey_matches_iff_witness :
    (HotKey.mk RawMods.ctrlShift 5).matches ⟨true, true, false, false, 7⟩ 5 = true ∧
    (HotKey.mk RawMods.ctrlShift 5).matches ⟨true, true, false, false, 7 ||| 8⟩ 5 =
      (HotKey.mk RawMods.ctrlShift 5).matches ⟨true, true, false, false, 7⟩ 5 := by
  have h := hotkey_matches_iff (HotKey.mk RawMods.ctrlShift 5)
    ⟨true, true, false, false, 7⟩ 5
  exact ⟨h.1.mpr ⟨rfl, by decide⟩, h.2 8⟩

/-- C2: registering an already-present hotkey (structural equality) fails
with `HotKeyAlreadyRegistered` and leaves the registered set unchanged;
registering an absent hotkey appends exactly one entry and returns its
handle. -/
theorem register_duplicate_spec (m : HotKeyManager) (h : HotKey) :
    (m.is_registered h = true →
      m.register h =
        (Except.error (HotKeyManagerError.HotKeyAlreadyRegistered h), m)) ∧
    (m.is_registered h = false →
      m.register h = (Except.ok ⟨⟨h⟩⟩, ⟨m.registered_hotkeys ++ [⟨⟨h⟩⟩]⟩) ∧
      ((m.register h).2.registered_hotkeys).length =
        m.registered_hotkeys.length + 1) := by
  constructor
  · intro hr
    simp [HotKeyManager.register, hr]
  · intro hr
    simp [HotKeyManager.register, hr, GlobalAcceleratorPlatform.new]

/-- Witness for C2: registering Ctrl+1 into the empty manager appends one
entry; registering it again into the resulting manager is rejected with the
state unchanged. -/
theorem register_duplicate_spec_witness :
    HotKeyManager.new.register ⟨RawMods.ctrl, 1⟩ =
      (Except.ok ⟨⟨⟨RawMods.ctrl, 1⟩⟩⟩, ⟨[⟨⟨⟨RawMods.ctrl, 1⟩⟩⟩]⟩) ∧
    (HotKeyManager.mk [⟨⟨⟨RawMods.ctrl, 1⟩⟩⟩]).register ⟨RawMods.ctrl, 1⟩ =
      (Except.error (HotKeyManagerError.HotKeyAlreadyRegistered ⟨RawMods.ctrl, 1⟩),
        HotKeyManager.mk [⟨⟨⟨RawMods.ctrl, 1⟩⟩⟩]) := by
  have h1 := register_duplicate_spec HotKeyManager.new ⟨RawMods.ctrl, 1⟩
  have h2 := register_duplicate_spec
    (HotKeyManager.mk [⟨⟨⟨RawMods.ctrl, 1⟩⟩⟩]) ⟨RawMods.ctrl, 1⟩
  exact ⟨(h1.2 (by decide)).1, h2.1 (by decide)⟩

/-- C9: the hotkey identifier is a pure function of the structural value
(equal hotkeys always yield equal 16-bit ids); structurally distinct hotkeys
may collide in the 16-bit space, and such collisions are neither detected nor
resolved — registration keys on structural equality, so a hotkey whose id
collides with an already-registered one still registers successfully. -/
theorem hotkey_id_deterministic_collision_tolerant :
    (∀ h1 h2 : HotKey, h1 = h2 → h1.id = h2.id) ∧
    (∃ g1 g2 : HotKey, g1 ≠ g2 ∧ g1.id = g2.id) ∧
    (∀ g1 g2 : HotKey, g1 ≠ g2 → g1.id = g2.id →
      ((HotKeyManager.new.register g1).2.register g2).1 = Except.ok ⟨⟨g2⟩⟩) := by
  refine ⟨fun h1 h2 hEq => by rw [hEq], ⟨⟨RawMods.none, 0⟩, ⟨RawMods.none, 65536⟩,
    by decide, by decide⟩, fun g1 g2 hne _ => ?_⟩
  have hstep : (HotKeyManager.new.register g1).2 = ⟨[⟨⟨g1⟩⟩]⟩ := by
    simp [HotKeyManager.register, HotKeyManager.new, HotKeyManager.is_registered,
      GlobalAcceleratorPlatform.new]
  rw [hstep]
  have hmem : (HotKeyManager.mk [⟨⟨g1⟩⟩]).is_registered g2 = false := by
    simp [HotKeyManager.is_registered, GlobalAcceleratorPlatform.new,
      List.contains, hne.symm]
  simp [HotKeyManager.register, hmem, GlobalAcceleratorPlatform.new]

/-- Witness for C9: the concrete colliding pair (no modifiers, keys 0 and
65536) — distinct hotkeys, identical 16-bit id — where the second still
registers after the first. -/
theorem hotkey_id_collision_witness :
    ((HotKeyManager.new.register ⟨RawMods.none, 0⟩).2.register
        ⟨RawMods.none, 65536⟩).1 =
      Except.ok ⟨⟨⟨RawMods.none, 65536⟩⟩⟩ :=
  hotkey_id_deterministic_collision_tolerant.2.2
    ⟨RawMods.none, 0⟩ ⟨RawMods.none, 65536⟩ (by decide) (by decide)

/-- C10: on the unified `Size`, a variant already carrying the requested
representation is returned by cast with no scale-factor validation at all —
for every `F64`, however malformed; the assertion path is taken only by the
variant that actually converts. -/
theorem unified_skips_validation (s : F64) :
    (∀ v : PhysicalSize U32,
      Size.to_physical (P := ℚ) (Size.Physical v) s = some v.cast) ∧
    (∀ v : LogicalSize ℚ,
      Size.to_logical (P := ℚ) (Size.Logical v) s = some v.cast) ∧
    (∀ v : LogicalSize ℚ, validate_scale_factor s = false →
      Size.to_physical (P := ℚ) (Size.Logical v) s = none) ∧
    (∀ v : PhysicalSize U32, validate_scale_factor s = false →
      Size.to_logical (P := ℚ) (Size.Physical v) s = none) := by
  refine ⟨fun v => rfl, fun v => rfl, fun v hv => ?_, fun v hv => ?_⟩
  · simp [Size.to_physical, LogicalSize.to_physical, hv]
  · simp [Size.to_logical, PhysicalSize.to_logical, hv]

/-- Witness for C10: a NaN scale factor (sign-positive NaN): the Physical
variant converts to physical without panicking, while the Logical variant
hits the assertion. -/
theorem unified_skips_validation_witness :
    Size.to_physical (P := ℚ) (Size.Physical ⟨⟨3⟩, ⟨4⟩⟩)
        ⟨0, true, false, false, true⟩ = some ⟨3, 4⟩ ∧
    Size.to_physical (P := ℚ) (Size.Logical ⟨1, 2⟩)
        ⟨0, true, false, false, true⟩ = none := by
  have h := unified_skips_validation ⟨0, true, false, false, true⟩
  exact ⟨h.1 ⟨⟨3⟩, ⟨4⟩⟩, h.2.2.1 ⟨1, 2⟩ (by decide)⟩

/-- C1: divergence at the Windows bridge. On GTK, activating a materialized
custom item pushes exactly one menu request carrying its id, and a separator
pushes none. On Windows, however, `subclass_proc` intercepts `WM_COMMAND`
whenever `w_param` equals one of the three fixed edit ids, so a custom item
registered with the caller-supplied id 544654 (`CUT_ID`) produces zero
`MenuEvent`s — the claim's "for every caller-supplied id" fails there, while
any id outside the three reserved values produces exactly one event. -/
theorem menu_activation_routing_bug :
    subclass_wm_command MenuType.MenuBar CUT_ID = [] ∧
    subclass_wm_command MenuType.MenuBar COPY_ID = [] ∧
    subclass_wm_command MenuType.MenuBar PASTE_ID = [] ∧
    subclass_wm_command MenuType.MenuBar 42 = [⟨42, MenuType.MenuBar⟩] ∧
    WinMenu.add_custom_item [] CUT_ID "Custom" =
      [WinChild.strItem CUT_ID "Custom"] ∧
    gtkActivate (GtkChild.item "Custom" (some CUT_ID)) =
      [(none, some CUT_ID)] ∧
    gtkActivate (GtkChild.item "Custom" (some 42)) = [(none, some 42)] ∧
    gtkActivate GtkChild.separator = [] := by
  refine ⟨by decide, by decide, by decide, by decide, rfl, rfl, rfl, rfl⟩

/-- C7: materialization preserves display order recursively. The example
menu [A, Separator, Submenu(B, C)] yields GTK children in exactly that order
with B before C inside the submenu (and likewise through the Win32 append
calls); in general the generated child list is a homomorphism for
concatenation, each custom entry yields exactly its own activatable item,
and a submenu entry yields exactly one container holding its recursively
generated children. -/
theorem menu_materialization_order :
    (genList (GtkMenu.add_submenu
        (GtkMenu.add_native_item
          (GtkMenu.add_item [] ⟨1, none, false, true, "A"⟩) MenuItem.Separator)
        "S" true
        (GtkMenu.add_item (GtkMenu.add_item [] ⟨2, none, false, true, "B"⟩)
          ⟨3, none, false, true, "C"⟩)) =
      [GtkChild.item "A" (some 1), GtkChild.separator,
        GtkChild.submenuItem "S"
          [GtkChild.item "B" (some 2), GtkChild.item "C" (some 3)]]) ∧
    (WinMenu.add_submenu
        (WinMenu.add_item (WinMenu.add_custom_item [] 1 "A") MenuItem.Separator)
        "S" true
        (WinMenu.add_custom_item (WinMenu.add_custom_item [] 2 "B") 3 "C") =
      [WinChild.strItem 1 "A", WinChild.separator,
        WinChild.popup "S" true
          [WinChild.strItem 2 "B", WinChild.strItem 3 "C"]]) ∧
    (∀ xs ys : GtkMenu, genList (xs ++ ys) = genList xs ++ genList ys) ∧
    (∀ attrs : MenuItemAttributes,
      genInfo (GtkMenuInfo.custom attrs) =
        some (GtkChild.item attrs.title (some attrs.id))) ∧
    (∀ (title : String) (enabled : Bool) (menu : GtkMenu),
      genInfo (GtkMenuInfo.submenu title enabled menu) =
        some (GtkChild.submenuItem title (genList menu))) := by
  refine ⟨?_, ?_, ?_, fun attrs => rfl, fun title enabled menu => rfl⟩
  · simp [GtkMenu.add_item, GtkMenu.add_native_item, GtkMenu.add_submenu,
      genList, genInfo]
  · simp [WinMenu.add_custom_item, WinMenu.add_item, WinMenu.add_submenu]
  · intro xs ys
    induction xs with
    | nil => simp [genList]
    | cons i rest ih =>
      rw [List.cons_append]
      cases h : genInfo i with
      | some c => simp [genList, h, ih]
      | none => simp [genList, h, ih]

/-! #### Rounding lemmas shared by the numeric claims -/

theorem rustRound_abs_le (q : ℚ) : |(rustRound q : ℚ) - q| ≤ 1 / 2 := by
  unfold rustRound
  split
  · rw [abs_sub_le_iff]
    constructor
    · have := Int.floor_le (q + 1 / 2)
      linarith
    · have := Int.sub_one_lt_floor (q + 1 / 2)
      linarith
  · rw [abs_sub_le_iff]
    constructor
    · have := Int.ceil_lt_add_one (q - 1 / 2)
      linarith
    · have := Int.le_ceil (q - 1 / 2)
      linarith

theorem rustRound_nearest (q : ℚ) (n : ℤ) :
    |(rustRound q : ℚ) - q| ≤ |(n : ℚ) - q| := by
  rcases eq_or_ne n (rustRound q) with h | h
  · rw [h]
  · have hz : (1 : ℤ) ≤ |n - rustRound q| := Int.one_le_abs (sub_ne_zero.mpr h)
    have hq : (1 : ℚ) ≤ |(n : ℚ) - (rustRound q : ℚ)| := by
      have h1 : ((1 : ℤ) : ℚ) ≤ ((|n - rustRound q| : ℤ) : ℚ) := by
        exact_mod_cast hz
      rwa [Int.cast_abs, Int.cast_sub, Int.cast_one] at h1
    have h2 := rustRound_abs_le q
    have h3 : |q - (rustRound q : ℚ)| ≤ 1 / 2 := by
      rw [abs_sub_comm]; exact h2
    have tri : |(n : ℚ) - (rustRound q : ℚ)| ≤ |(n : ℚ) - q| + |q - (rustRound q : ℚ)| :=
      abs_sub_le _ q _
    linarith

theorem rustRound_bounds (q : ℚ) (A B : ℤ) (h1 : (A : ℚ) ≤ q) (h2 : q ≤ (B : ℚ)) :
    A ≤ rustRound q ∧ rustRound q ≤ B := by
  unfold rustRound
  split
  · constructor
    · exact Int.le_floor.mpr (by linarith)
    · have hlt : ⌊q + 1 / 2⌋ < B + 1 := Int.floor_lt.mpr (by
        have hc : ((B + 1 : ℤ) : ℚ) = (B : ℚ) + 1 := by push_cast; ring
        linarith)
      omega
  · constructor
    · have hgt : ((A : ℚ) - 1) < (⌈q - 1 / 2⌉ : ℚ) := by
        have := Int.le_ceil (q - 1 / 2)
        linarith
      have h4 : (A - 1 : ℤ) < ⌈q - 1 / 2⌉ := by exact_mod_cast hgt
      omega
    · exact Int.ceil_le.mpr (by linarith)

theorem satCast_id (lo hi n : ℤ) (h1 : lo ≤ n) (h2 : n ≤ hi) :
    satCast lo hi n = n := by
  unfold satCast
  rw [min_eq_right h2, max_eq_right h1]

theorem clampDim_mem (dv lo hi : ℚ) (h : lo ≤ hi) :
    lo ≤ clampDim dv lo hi ∧ clampDim dv lo hi ≤ hi := by
  unfold clampDim
  split
  · exact ⟨le_refl _, h⟩
  · split
    · exact ⟨h, le_refl _⟩
    · next hlo hhi => exact ⟨le_of_not_lt hlo, le_of_not_lt hhi⟩

/-- C6: `validate_scale_factor` accepts exactly the finite, normal, strictly
positive floats (rejecting zero, subnormal, negative, infinite and NaN
factors); `to_physical` multiplies each component by the factor and
`to_logical` divides each component by it, and both hit the fatal assertion
(modelled as `none`) precisely when validation fails. -/
theorem scale_factor_validation_spec (s : F64) (hWF : s.WF) :
    (validate_scale_factor s = true ↔
      (s.isNaN = false ∧ s.isInfinite = false ∧ s.isSubnormal = false ∧
        0 < s.val)) ∧
    (∀ L : LogicalSize ℚ,
      LogicalSize.to_physical (X := ℚ) L s =
        if validate_scale_factor s then
          some ⟨L.width * s.val, L.height * s.val⟩
        else none) ∧
    (∀ P : PhysicalSize ℚ,
      PhysicalSize.to_logical (X := ℚ) P s =
        if validate_scale_factor s then
          some ⟨P.width / s.val, P.height / s.val⟩
        else none) := by
  obtain ⟨hneg, hpos⟩ := hWF
  refine ⟨?_, fun L => rfl, fun P => rfl⟩
  simp only [validate_scale_factor, F64.is_sign_positive, F64.is_normal,
    Bool.and_eq_true, Bool.not_eq_true', decide_eq_true_eq]
  constructor
  · rintro ⟨hsp, ⟨⟨hnan, hinf⟩, hsub⟩, hv0⟩
    refine ⟨hnan, hinf, hsub, ?_⟩
    rcases lt_trichotomy s.val 0 with hlt | h0 | hgt
    · rw [hneg hlt] at hsp
      cases hsp
    · exact absurd h0 hv0
    · exact hgt
  · rintro ⟨hnan, hinf, hsub, hgt⟩
    exact ⟨hpos hgt, ⟨⟨hnan, hinf⟩, hsub⟩, ne_of_gt hgt⟩

/-- Witness for C6: scale factor 3/2 (a coherent, normal positive float)
validates, and conversion multiplies the components. -/
theorem scale_factor_validation_spec_witness :
    validate_scale_factor ⟨3 / 2, false, false, false, true⟩ = true ∧
    LogicalSize.to_physical (X := ℚ) (⟨2, 4⟩ : LogicalSize ℚ)
        ⟨3 / 2, false, false, false, true⟩ = some ⟨3, 6⟩ := by
  have h := scale_factor_validation_spec ⟨3 / 2, false, false, false, true⟩
    (by norm_num [F64.WF])
  have hv : validate_scale_factor (⟨3 / 2, false, false, false, true⟩ : F64) = true :=
    h.1.mpr ⟨rfl, rfl, rfl, by norm_num⟩
  refine ⟨hv, ?_⟩
  rw [h.2.1 (⟨2, 4⟩ : LogicalSize ℚ)]
  simp only [hv, if_true]
  norm_num

/-- C8: for an in-range value, the pixel cast into an integral type is the
`f64` value rounded to the nearest integer: it coincides with `rustRound`,
it is at least as close to the value as any other integer (so it never
truncates), and casting back to `f64` yields exactly that nearest
integer. -/
theorem pixel_cast_rounds_to_nearest (q : ℚ)
    (hlo : (i32min : ℚ) ≤ q) (hhi : q ≤ (i32max : ℚ)) :
    (Pixel.cast q : I32).v = rustRound q ∧
    (∀ n : ℤ, |((Pixel.cast q : I32).v : ℚ) - q| ≤ |(n : ℚ) - q|) ∧
    (Pixel.cast (Pixel.cast q : I32) : ℚ) = (rustRound q : ℚ) := by
  have hb := rustRound_bounds q i32min i32max hlo hhi
  have hcast : (Pixel.cast q : I32) = ⟨satCast i32min i32max (rustRound q)⟩ := rfl
  have hv : (Pixel.cast q : I32).v = rustRound q := by
    rw [hcast]
    exact satCast_id _ _ _ hb.1 hb.2
  refine ⟨hv, fun n => ?_, ?_⟩
  · rw [hv]
    exact rustRound_nearest q n
  · show ((Pixel.cast q : I32).v : ℚ) = (rustRound q : ℚ)
    rw [hv]

/-- Witness for C8: casting 13/5 = 2.6 yields 3 (the nearest integer), not
the truncation 2. -/
theorem pixel_cast_rounds_to_nearest_witness :
    (Pixel.cast ((13 : ℚ) / 5) : I32).v = rustRound ((13 : ℚ) / 5) ∧
    (Pixel.cast ((13 : ℚ) / 5) : I32).v = 3 := by
  have h := pixel_cast_rounds_to_nearest ((13 : ℚ) / 5)
    (by norm_num [i32min]) (by norm_num [i32max])
  refine ⟨h.1, ?_⟩
  rw [h.1]
  norm_num [rustRound]

/-- C4: round-trip conversion. For a valid positive scale factor and a
logical size whose physical image fits the `u32` range, converting to
physical and back to logical reproduces each component up to the rounding
error of the integer physical representation (at most half a physical pixel,
i.e. `1/(2s)` logical units); through the float physical representation the
round trip is exact in the exact-arithmetic model. -/
theorem size_roundtrip (s : F64) (L : LogicalSize ℚ)
    (hv : validate_scale_factor s = true) (hpos : 0 < s.val)
    (hw0 : 0 ≤ L.width * s.val) (hwM : L.width * s.val ≤ ((u32max : ℤ) : ℚ))
    (hh0 : 0 ≤ L.height * s.val) (hhM : L.height * s.val ≤ ((u32max : ℤ) : ℚ)) :
    (∃ P : PhysicalSize U32, ∃ back : LogicalSize ℚ,
      LogicalSize.to_physical L s = some P ∧
      PhysicalSize.to_logical P s = some back ∧
      |back.width - L.width| ≤ 1 / (2 * s.val) ∧
      |back.height - L.height| ≤ 1 / (2 * s.val)) ∧
    (∃ Pf : PhysicalSize ℚ,
      LogicalSize.to_physical L s = some Pf ∧
      PhysicalSize.to_logical Pf s = some L) := by
  have hW := rustRound_bounds (L.width * s.val) 0 u32max
    (by exact_mod_cast hw0) hwM
  have hH := rustRound_bounds (L.height * s.val) 0 u32max
    (by exact_mod_cast hh0) hhM
  have hne : s.val ≠ 0 := ne_of_gt hpos
  have comp : ∀ x : ℚ, |(rustRound x : ℚ) / s.val - x / s.val| ≤ 1 / (2 * s.val) := by
    intro x
    have habs := rustRound_abs_le x
    have heq : (rustRound x : ℚ) / s.val - x / s.val =
        ((rustRound x : ℚ) - x) / s.val := by
      ring
    rw [heq, abs_div, abs_of_pos hpos]
    have h12 : (1 : ℚ) / (2 * s.val) = (1 / 2) / s.val := by
      ring
    rw [h12]
    exact div_le_div_of_nonneg_right habs (le_of_lt hpos)
  constructor
  · refine ⟨⟨⟨rustRound (L.width * s.val)⟩, ⟨rustRound (L.height * s.val)⟩⟩,
      ⟨(rustRound (L.width * s.val) : ℚ) / s.val,
        (rustRound (L.height * s.val) : ℚ) / s.val⟩, ?_, ?_, ?_, ?_⟩
    · unfold LogicalSize.to_physical
      rw [if_pos hv]
      have h1 : (Pixel.from_f64 (Pixel.intoF64 L.width * s.val) : U32) =
          ⟨rustRound (L.width * s.val)⟩ := by
        show U32.mk (satCast 0 u32max (rustRound (L.width * s.val))) = _
        rw [satCast_id _ _ _ hW.1 hW.2]
      have h2 : (Pixel.from_f64 (Pixel.intoF64 L.height * s.val) : U32) =
          ⟨rustRound (L.height * s.val)⟩ := by
        show U32.mk (satCast 0 u32max (rustRound (L.height * s.val))) = _
        rw [satCast_id _ _ _ hH.1 hH.2]
      rw [h1, h2]
    · unfold PhysicalSize.to_logical
      rw [if_pos hv]
      rfl
    · have h1 := comp (L.width * s.val)
      rwa [mul_div_cancel_right₀ _ hne] at h1
    · have h1 := comp (L.height * s.val)
      rwa [mul_div_cancel_right₀ _ hne] at h1
  · obtain ⟨w, h⟩ := L
    refine ⟨⟨w * s.val, h * s.val⟩, ?_, ?_⟩
    · unfold LogicalSize.to_physical
      rw [if_pos hv]
      rfl
    · unfold PhysicalSize.to_logical
      rw [if_pos hv]
      show some (⟨w * s.val / s.val, h * s.val / s.val⟩ : LogicalSize ℚ) =
        some (⟨w, h⟩ : LogicalSize ℚ)
      rw [mul_div_cancel_right₀ _ hne, mul_div_cancel_right₀ _ hne]

/-- Witness for C4: scale factor 2 with logical size (3/2, 5/2). -/
theorem size_roundtrip_witness :
    (∃ P : PhysicalSize U32, ∃ back : LogicalSize ℚ,
      LogicalSize.to_physical (⟨3 / 2, 5 / 2⟩ : LogicalSize ℚ)
          ⟨2, false, false, false, true⟩ = some P ∧
      PhysicalSize.to_logical P ⟨2, false, false, false, true⟩ = some back ∧
      |back.width - 3 / 2| ≤ 1 / (2 * 2) ∧
      |back.height - 5 / 2| ≤ 1 / (2 * 2)) ∧
    (∃ Pf : PhysicalSize ℚ,
      LogicalSize.to_physical (⟨3 / 2, 5 / 2⟩ : LogicalSize ℚ)
          ⟨2, false, false, false, true⟩ = some Pf ∧
      PhysicalSize.to_logical Pf ⟨2, false, false, false, true⟩ =
        some (⟨3 / 2, 5 / 2⟩ : LogicalSize ℚ)) :=
  size_roundtrip ⟨2, false, false, false, true⟩ ⟨3 / 2, 5 / 2⟩
    (by decide) (by norm_num) (by norm_num) (by norm_num [u32max])
    (by norm_num) (by norm_num [u32max])

/-- C5 (counterexample): with valid scale factor 1, desired 0.65 and bounds
0.6 ≤ 0.7 (all logical, componentwise ordered), the clamped physical value
0.65 is rounded up to the `u32` 1 by the final conversion, so the returned
size lies strictly above the maximum bound in physical units. -/
theorem size_clamp_rounding_escape :
    (3 / 5 : ℚ) ≤ 7 / 10 ∧
    Size.clamp (Size.Logical ⟨13 / 20, 13 / 20⟩) (Size.Logical ⟨3 / 5, 3 / 5⟩)
        (Size.Logical ⟨7 / 10, 7 / 10⟩) ⟨1, false, false, false, true⟩ =
      some (Size.Physical ⟨⟨1⟩, ⟨1⟩⟩) ∧
    Size.to_physical (P := ℚ) (Size.Logical ⟨7 / 10, 7 / 10⟩)
        ⟨1, false, false, false, true⟩ = some ⟨7 / 10, 7 / 10⟩ ∧
    Size.to_physical (P := ℚ) (Size.Physical ⟨⟨1⟩, ⟨1⟩⟩)
        ⟨1, false, false, false, true⟩ = some ⟨1, 1⟩ ∧
    (7 / 10 : ℚ) < 1 := by
  have hv : validate_scale_factor ⟨1, false, false, false, true⟩ = true := by
    decide
  have hconv : ∀ a b : ℚ,
      Size.to_physical (P := ℚ) (Size.Logical ⟨a, b⟩)
        ⟨1, false, false, false, true⟩ = some ⟨a, b⟩ := by
    intro a b
    show LogicalSize.to_physical _ _ = _
    unfold LogicalSize.to_physical
    rw [if_pos hv]
    show some (⟨a * 1, b * 1⟩ : PhysicalSize ℚ) = _
    rw [mul_one, mul_one]
  refine ⟨by norm_num, ?_, hconv (7 / 10) (7 / 10), ?_, by norm_num⟩
  · have hcd : clampDim (13 / 20 : ℚ) (3 / 5) (7 / 10) = 13 / 20 := by
      unfold clampDim
      rw [if_neg (by norm_num), if_neg (by norm_num)]
    have hphys : Size.clampPhys (Size.Logical ⟨13 / 20, 13 / 20⟩)
        (Size.Logical ⟨3 / 5, 3 / 5⟩) (Size.Logical ⟨7 / 10, 7 / 10⟩)
        ⟨1, false, false, false, true⟩ = some ⟨13 / 20, 13 / 20⟩ := by
      unfold Size.clampPhys
      rw [hconv (13 / 20) (13 / 20), hconv (3 / 5) (3 / 5),
        hconv (7 / 10) (7 / 10)]
      show some (⟨clampDim (13 / 20 : ℚ) (3 / 5) (7 / 10),
        clampDim (13 / 20 : ℚ) (3 / 5) (7 / 10)⟩ : PhysicalSize ℚ) = _
      rw [hcd]
    unfold Size.clamp
    rw [hphys]
    have hcomp : (Pixel.cast ((13 : ℚ) / 20) : U32) = ⟨1⟩ := by
      show U32.mk (satCast 0 u32max (rustRound ((13 : ℚ) / 20))) = _
      have hr : rustRound ((13 : ℚ) / 20) = 1 := by
        unfold rustRound
        rw [if_pos (by norm_num)]
        norm_num
      rw [hr, show satCast 0 u32max 1 = 1 from by norm_num [satCast, u32max]]
    show some (Size.Physical
      ⟨Pixel.cast ((13 : ℚ) / 20), Pixel.cast ((13 : ℚ) / 20)⟩) = _
    rw [hcomp]
  · show some (PhysicalSize.cast _) = _
    show some (⟨((1 : ℤ) : ℚ), ((1 : ℤ) : ℚ)⟩ : PhysicalSize ℚ) = _
    norm_num

/-- C5 (amended): when all three sizes convert (the scale factor passes
whatever validation its variants require) and the physical bounds are
componentwise ordered, nonnegative and within `u32` range, the clamped
physical float value lies within the bounds componentwise, the returned
`Size` is exactly that value with each component rounded to the nearest
`u32`, and each returned component differs from the in-bounds float value by
at most half a physical pixel. -/
theorem size_clamp_spec (d mn mx : Size) (s : F64)
    (pd pmn pmx : PhysicalSize ℚ)
    (hd : Size.to_physical (P := ℚ) d s = some pd)
    (hmn : Size.to_physical (P := ℚ) mn s = some pmn)
    (hmx : Size.to_physical (P := ℚ) mx s = some pmx)
    (hw : pmn.width ≤ pmx.width) (hh : pmn.height ≤ pmx.height)
    (h0w : 0 ≤ pmn.width) (h0h : 0 ≤ pmn.height)
    (hMw : pmx.width ≤ ((u32max : ℤ) : ℚ)) (hMh : pmx.height ≤ ((u32max : ℤ) : ℚ)) :
    ∃ p : PhysicalSize ℚ,
      Size.clampPhys d mn mx s = some p ∧
      Size.clamp d mn mx s = some (Size.Physical p.cast) ∧
      pmn.width ≤ p.width ∧ p.width ≤ pmx.width ∧
      pmn.height ≤ p.height ∧ p.height ≤ pmx.height ∧
      |(((p.cast : PhysicalSize U32).width.v : ℤ) : ℚ) - p.width| ≤ 1 / 2 ∧
      |(((p.cast : PhysicalSize U32).height.v : ℤ) : ℚ) - p.height| ≤ 1 / 2 := by
  have hphys : Size.clampPhys d mn mx s =
      some ⟨clampDim pd.width pmn.width pmx.width,
            clampDim pd.height pmn.height pmx.height⟩ := by
    unfold Size.clampPhys
    rw [hd, hmn, hmx]
    rfl
  have hbw := clampDim_mem pd.width pmn.width pmx.width hw
  have hbh := clampDim_mem pd.height pmn.height pmx.height hh
  have hinw : (((0 : ℤ)) : ℚ) ≤ clampDim pd.width pmn.width pmx.width := by
    push_cast
    linarith [hbw.1]
  have hinw2 : clampDim pd.width pmn.width pmx.width ≤ ((u32max : ℤ) : ℚ) :=
    le_trans hbw.2 hMw
  have hinh : (((0 : ℤ)) : ℚ) ≤ clampDim pd.height pmn.height pmx.height := by
    push_cast
    linarith [hbh.1]
  have hinh2 : clampDim pd.height pmn.height pmx.height ≤ ((u32max : ℤ) : ℚ) :=
    le_trans hbh.2 hMh
  have hrw := rustRound_bounds (clampDim pd.width pmn.width pmx.width)
    0 u32max hinw hinw2
  have hrh := rustRound_bounds (clampDim pd.height pmn.height pmx.height)
    0 u32max hinh hinh2
  refine ⟨⟨clampDim pd.width pmn.width pmx.width,
    clampDim pd.height pmn.height pmx.height⟩, hphys, ?_,
    hbw.1, hbw.2, hbh.1, hbh.2, ?_, ?_⟩
  · unfold Size.clamp
    rw [hphys]
    rfl
  · show |((satCast 0 u32max
      (rustRound (clampDim pd.width pmn.width pmx.width)) : ℤ) : ℚ) -
        clampDim pd.width pmn.width pmx.width| ≤ 1 / 2
    rw [satCast_id _ _ _ hrw.1 hrw.2]
    exact rustRound_abs_le _
  · show |((satCast 0 u32max
      (rustRound (clampDim pd.height pmn.height pmx.height)) : ℤ) : ℚ) -
        clampDim pd.height pmn.height pmx.height| ≤ 1 / 2
    rw [satCast_id _ _ _ hrh.1 hrh.2]
    exact rustRound_abs_le _

/-- Witness for the amended C5: desired Logical (10, 20) clamped between
Physical (2, 2) and Physical (8, 30) at scale factor 1. -/
theorem size_clamp_spec_witness :
    ∃ p : PhysicalSize ℚ,
      Size.clampPhys (Size.Logical ⟨10, 20⟩) (Size.Physical ⟨⟨2⟩, ⟨2⟩⟩)
          (Size.Physical ⟨⟨8⟩, ⟨30⟩⟩) ⟨1, false, false, false, true⟩ = some p ∧
      Size.clamp (Size.Logical ⟨10, 20⟩) (Size.Physical ⟨⟨2⟩, ⟨2⟩⟩)
          (Size.Physical ⟨⟨8⟩, ⟨30⟩⟩) ⟨1, false, false, false, true⟩ =
        some (Size.Physical p.cast) ∧
      (2 : ℚ) ≤ p.width ∧ p.width ≤ (8 : ℚ) ∧
      (2 : ℚ) ≤ p.height ∧ p.height ≤ (30 : ℚ) ∧
      |(((p.cast : PhysicalSize U32).width.v : ℤ) : ℚ) - p.width| ≤ 1 / 2 ∧
      |(((p.cast : PhysicalSize U32).height.v : ℤ) : ℚ) - p.height| ≤ 1 / 2 := by
  have hv : validate_scale_factor ⟨1, false, false, false, true⟩ = true := by
    decide
  have hd : Size.to_physical (P := ℚ) (Size.Logical ⟨10, 20⟩)
      ⟨1, false, false, false, true⟩ = some ⟨10, 20⟩ := by
    show LogicalSize.to_physical _ _ = _
    unfold LogicalSize.to_physical
    rw [if_pos hv]
    show some (⟨(10 : ℚ) * 1, (20 : ℚ) * 1⟩ : PhysicalSize ℚ) = _
    rw [mul_one, mul_one]
  have hmn : Size.to_physical (P := ℚ) (Size.Physical ⟨⟨2⟩, ⟨2⟩⟩)
      ⟨1, false, false, false, true⟩ = some ⟨2, 2⟩ := by
    show some (⟨((2 : ℤ) : ℚ), ((2 : ℤ) : ℚ)⟩ : PhysicalSize ℚ) = _
    norm_num
  have hmx : Size.to_physical (P := ℚ) (Size.Physical ⟨⟨8⟩, ⟨30⟩⟩)
      ⟨1, false, false, false, true⟩ = some ⟨8, 30⟩ := by
    show some (⟨((8 : ℤ) : ℚ), ((30 : ℤ) : ℚ)⟩ : PhysicalSize ℚ) = _
    norm_num
  exact size_clamp_spec (Size.Logical ⟨10, 20⟩) (Size.Physical ⟨⟨2⟩, ⟨2⟩⟩)
    (Size.Physical ⟨⟨8⟩, ⟨30⟩⟩) ⟨1, false, false, false, true⟩
    ⟨10, 20⟩ ⟨2, 2⟩ ⟨8, 30⟩ hd hmn hmx (by norm_num) (by norm_num)
    (by norm_num) (by norm_num) (by norm_num [u32max]) (by norm_num [u32max])

end Tao
